import Mathlib

/-!
Verification of the `TempManager` component of the gradio-camera-capture
repository (`src/temp_manager.py`), against its natural-language design
specification.

The Python class is shallowly embedded as pure Lean functions over an explicit
filesystem model:

* `FS` models the on-disk state: the set of existing directories and the files
  inside them.  A file record carries its containing directory, its bare name,
  its last-modified time, a size, and an environment flag `fails` saying
  whether the operating system would raise an error on an attempt to delete it
  (permission problem, concurrent vanish, I/O failure).
* Time is modelled as `Int` (Python `time.time()` values); `st_mtime` is the
  `mtime` field of a file record.
* A Python method that can raise is embedded as a function returning, besides
  the updated manager and filesystem, an `Option Err`: `some e` means the
  method raised `e` at that point, with the state as of the raise (effects
  performed before the raise persist, as in Python).
* The unique-name primitives `tempfile.mkdtemp` and
  `tempfile.NamedTemporaryFile` are modelled by a deterministic allocator
  `diagName` that returns a string strictly longer than every name already
  taken, hence provably fresh; this models the library's uniqueness guarantee.
* `threading.Timer` is modelled by an `Option TimerRec` field: `none` is
  Python `self.timer = None`; a `TimerRec` records the armed delay and whether
  the timer is still pending (`armed`) or has already fired (`fired`): a fired
  `Timer` object is still truthy and may be cancelled as a no-op, exactly as
  in Python.
-/

/-- An exception raised by an embedded operation. `oserror` stands for any
`OSError` from the filesystem; `attributeError` is Python's `AttributeError`
from using `None` where an object was expected. -/
inductive Err where
  | oserror
  | attributeError
deriving DecidableEq

/-- Whether a `threading.Timer` object is still pending or has already run. -/
inductive TimerPhase where
  | armed
  | fired
deriving DecidableEq

/-- A `threading.Timer` object: the delay it was constructed with and its
phase. -/
structure TimerRec where
  delay : Int
  phase : TimerPhase
deriving DecidableEq

/-- A file on disk: containing directory path, bare file name, last-modified
time (`st_mtime`), size in bytes, and the environment flag `fails` telling
whether an `unlink` of this file would raise an `OSError`. -/
structure FileRec where
  dir : String
  name : String
  mtime : Int
  size : Nat
  fails : Bool
deriving DecidableEq

/-- The filesystem: existing directories and existing files. -/
structure FS where
  dirs : List String
  files : List FileRec
deriving DecidableEq

/-- The files directly inside directory `d` (Python `Path(d).iterdir()`). -/
def FS.filesIn (fs : FS) (d : String) : List FileRec :=
  fs.files.filter (fun f => f.dir == d)

/-- Two file records denote the same path. -/
def samePathB (g f : FileRec) : Bool :=
  g.dir == f.dir && g.name == f.name

/-- `Path.unlink()` on the path of `f`: removes every record at that path, or
raises an `OSError` when the environment flag says deletion fails. -/
def FS.unlink (fs : FS) (f : FileRec) : FS × Option Err :=
  if f.fails then (fs, some .oserror)
  else ({ fs with files := fs.files.filter (fun g => !samePathB g f) }, none)

/-- `Path.rmdir()`: removes the directory; raises `OSError` when the directory
is missing or not empty. -/
def FS.rmdir (fs : FS) (d : String) : FS × Option Err :=
  if d ∈ fs.dirs ∧ fs.filesIn d = [] then
    ({ fs with dirs := fs.dirs.filter (fun x => x != d) }, none)
  else (fs, some .oserror)

/-- All characters of a list of strings, concatenated. -/
def concatChars : List String → List Char
  | [] => []
  | s :: rest => s.data ++ concatChars rest

/-- Deterministic model of the platform's unique-temp-name allocator: a string
strictly longer than every name in `taken`, hence distinct from all of them
even after arbitrary decoration. -/
def diagName (taken : List String) : String :=
  ⟨concatChars taken ++ ['x']⟩

/-- The platform temporary-storage root (`tempfile.gettempdir()`). -/
def defaultTmpDir : String := "/tmp"

/-- `tempfile.mkdtemp(prefix=pfx)`: creates and returns a fresh directory
under the platform temp root whose name starts with `pfx`. -/
def FS.mkdtemp (fs : FS) (pfx : String) : String × FS :=
  let d := defaultTmpDir ++ "/" ++ pfx ++ diagName fs.dirs
  (d, { fs with dirs := d :: fs.dirs })

/-- `tempfile.NamedTemporaryFile(dir=d, prefix=pfx, suffix=sfx,
delete=False).name`: creates a new empty file inside `d` whose name is the
given prefix (default `"tmp"`), then a fresh unique part, then the given
suffix (default `""`), and returns its full path.  `now` is the creation
time, which becomes the file's `st_mtime`. -/
def FS.namedTempFile (fs : FS) (d : String) (pfx sfx : Option String)
    (now : Int) : String × FS :=
  let nm := pfx.getD "tmp" ++ diagName ((fs.filesIn d).map (·.name)) ++ sfx.getD ""
  let f : FileRec := { dir := d, name := nm, mtime := now, size := 0, fails := false }
  (d ++ "/" ++ nm, { fs with files := f :: fs.files })

/-- The `TempManager` object: configuration fixed at construction, the timer
slot and the scratch-directory slot (`src/temp_manager.py`, `__init__`). -/
structure TempManager where
  check_interval : Int
  remove_timeout : Int
  timer : Option TimerRec
  temp_dir : Option String
deriving DecidableEq

/-- `TempManager.__init__(check_interval, remove_timeout)`: stores the
configuration, sets `timer` and `temp_dir` to `None`.  (`__init__` also runs
`atexit.register(self.exit)`; the process-exit hook invoking the registered
callback is modelled by `runAtexit` below.) -/
def TempManager.init (check_interval remove_timeout : Int) : TempManager :=
  { check_interval := check_interval, remove_timeout := remove_timeout,
    timer := none, temp_dir := none }

/-- `start_periodic_check`: `self.timer = threading.Timer(self.check_interval,
self.remove_old_files); self.timer.start()`. -/
def TempManager.start_periodic_check (m : TempManager) : TempManager :=
  { m with timer := some { delay := m.check_interval, phase := .armed } }

/-- `stop_periodic_check`: `self.timer.cancel(); self.timer = None`.  When
`self.timer` is `None`, `.cancel()` raises an `AttributeError`. -/
def TempManager.stop_periodic_check (m : TempManager) :
    TempManager × Option Err :=
  match m.timer with
  | none => (m, some .attributeError)
  | some _ => ({ m with timer := none }, none)

/-- `enter`: `self.temp_dir = Path(tempfile.mkdtemp(prefix="py_temp_manager-"))`
then `self.start_periodic_check()`. -/
def TempManager.enter (m : TempManager) (fs : FS) : TempManager × FS :=
  let (d, fs1) := fs.mkdtemp "py_temp_manager-"
  ({ m with temp_dir := some d }.start_periodic_check, fs1)

/-- The loop body of `remove_old_files`: for each listed file, delete it when
`time.time() - file_path.stat().st_mtime > self.remove_timeout`; an `OSError`
from `unlink` propagates, abandoning the rest of the list. -/
def removeOldLoop (timeout now : Int) (fs : FS) : List FileRec → FS × Option Err
  | [] => (fs, none)
  | f :: rest =>
    if now - f.mtime > timeout then
      match fs.unlink f with
      | (fs1, none) => removeOldLoop timeout now fs1 rest
      | (fs1, some e) => (fs1, some e)
    else removeOldLoop timeout now fs rest

/-- `remove_old_files`: iterate `self.temp_dir.iterdir()`, deleting entries
older than `remove_timeout`, then `self.start_periodic_check()`.  When
`self.temp_dir` is `None`, `.iterdir()` raises an `AttributeError`; an error
inside the loop propagates and the rescheduling line is never reached. -/
def TempManager.remove_old_files (m : TempManager) (now : Int) (fs : FS) :
    TempManager × FS × Option Err :=
  match m.temp_dir with
  | none => (m, fs, some .attributeError)
  | some d =>
    match removeOldLoop m.remove_timeout now fs (fs.filesIn d) with
    | (fs1, none) => (m.start_periodic_check, fs1, none)
    | (fs1, some e) => (m, fs1, some e)

/-- The loop body of `remove_temp_dir`: unlink every listed file; an `OSError`
propagates, abandoning the rest of the list. -/
def removeAllLoop (fs : FS) : List FileRec → FS × Option Err
  | [] => (fs, none)
  | f :: rest =>
    match fs.unlink f with
    | (fs1, none) => removeAllLoop fs1 rest
    | (fs1, some e) => (fs1, some e)

/-- `remove_temp_dir`: unlink every entry of `self.temp_dir.iterdir()`, then
`self.temp_dir.rmdir()`, then `self.temp_dir = None`.  An error at any point
propagates with the work done so far kept and `self.temp_dir` still set. -/
def TempManager.remove_temp_dir (m : TempManager) (fs : FS) :
    TempManager × FS × Option Err :=
  match m.temp_dir with
  | none => (m, fs, some .attributeError)
  | some d =>
    match removeAllLoop fs (fs.filesIn d) with
    | (fs1, some e) => (m, fs1, some e)
    | (fs1, none) =>
      match fs1.rmdir d with
      | (fs2, some e) => (m, fs2, some e)
      | (fs2, none) => ({ m with temp_dir := none }, fs2, none)

/-- `exit`: `if self.timer: self.stop_periodic_check()` then
`if self.temp_dir: self.remove_temp_dir()`.  (A fired `Timer` object is still
truthy; a `Path` object is always truthy, so both guards test for `None`.) -/
def TempManager.exit (m : TempManager) (fs : FS) :
    TempManager × FS × Option Err :=
  let (m1, e1) :=
    if m.timer.isSome then m.stop_periodic_check else (m, none)
  match e1 with
  | some e => (m1, fs, some e)
  | none =>
    if m1.temp_dir.isSome then m1.remove_temp_dir fs
    else (m1, fs, none)

/-- `request_temp_file(prefix, suffix)`: `tempfile.NamedTemporaryFile(dir=
self.temp_dir, prefix=prefix, suffix=suffix, delete=False).name`.  When
`self.temp_dir` is `None`, `dir=None` makes the library fall back to the
platform default temporary directory. -/
def TempManager.request_temp_file (m : TempManager) (pfx sfx : Option String)
    (now : Int) (fs : FS) : TempManager × String × FS :=
  let (p, fs1) := fs.namedTempFile (m.temp_dir.getD defaultTmpDir) pfx sfx now
  (m, p, fs1)

/-- A sequence of `request_temp_file` calls on the same manager, collecting
the returned paths. -/
def requestSeq (m : TempManager) (now : Int) :
    List (Option String × Option String) → FS → List String × FS
  | [], fs => ([], fs)
  | (pfx, sfx) :: rest, fs =>
    let (_, p, fs1) := m.request_temp_file pfx sfx now fs
    let (ps, fs2) := requestSeq m now rest fs1
    (p :: ps, fs2)

/-- Python `with TempManager(...) as m: body` (`__enter__` calls `enter`,
`__exit__` calls `exit`): the body runs between `enter` and `exit`; `exit`
runs whether or not the body raised; a body exception is re-raised after
`__exit__` returns (it returns `None`, which does not suppress), and an
exception from `exit` itself replaces it. -/
def withTempManager (m : TempManager) (fs : FS)
    (body : TempManager → FS → FS × Option Err) :
    TempManager × FS × Option Err :=
  let (m1, fs1) := m.enter fs
  let (fs2, be) := body m1 fs1
  match m1.exit fs2 with
  | (m2, fs3, none) => (m2, fs3, be)
  | (m2, fs3, some e) => (m2, fs3, some e)

/-- The process-exit hook running the callback registered by
`atexit.register(self.exit)` in `__init__`: it simply invokes `exit`; any
exception the callback raises escapes the callback into the `atexit`
machinery. -/
def runAtexit (m : TempManager) (fs : FS) : TempManager × FS × Option Err :=
  m.exit fs

/-!
Interleaving model for the timer thread.  `remove_old_files` runs on a
`threading.Timer` thread, so the foreground `exit` can interleave with it.
The sweep is split at its only yield-relevant boundary: the deletion loop
(everything up to line 47 of `temp_manager.py`) and the final
`self.start_periodic_check()` on line 48.  A system state carries the
manager, the filesystem, whether a sweep has finished its loop but not yet
executed its rescheduling line (`inFlight`), and the history flag `tornDown`
recording that a `teardown` (`exit`) call has completed.
-/

/-- Global state of the interleaving model. -/
structure Sys where
  m : TempManager
  fs : FS
  inFlight : Bool
  tornDown : Bool
deriving DecidableEq

/-- Events of the interleaving model: the timer fires and the sweep runs its
deletion loop at time `now`; a loop-finished sweep executes its rescheduling
line; the foreground calls `exit`. -/
inductive Ev where
  | fireBody (now : Int)
  | finishSweep
  | teardownEv
deriving DecidableEq

/-- One step of the interleaving model.  `fireBody` is enabled when an armed
timer exists and no sweep is mid-flight: the timer transitions to `fired` and
the deletion loop of `remove_old_files` runs; if the loop raises (including
the `AttributeError` when `temp_dir` is `None`), the sweep thread dies
without reaching the rescheduling line.  `finishSweep` is the sweep's
unconditional `self.start_periodic_check()` line.  `teardownEv` runs `exit`
to completion. -/
def stepEv : Ev → Sys → Sys
  | .fireBody now, s =>
    match s.m.timer with
    | some t =>
      if t.phase = .armed ∧ s.inFlight = false then
        let m1 : TempManager := { s.m with timer := some { t with phase := .fired } }
        match s.m.temp_dir with
        | none => { s with m := m1, inFlight := false }
        | some d =>
          match removeOldLoop s.m.remove_timeout now s.fs (s.fs.filesIn d) with
          | (fs1, none) => { s with m := m1, fs := fs1, inFlight := true }
          | (fs1, some _) => { s with m := m1, fs := fs1, inFlight := false }
      else s
    | none => s
  | .finishSweep, s =>
    if s.inFlight then
      { s with m := s.m.start_periodic_check, inFlight := false }
    else s
  | .teardownEv, s =>
    match s.m.exit s.fs with
    | (m1, fs1, _) => { s with m := m1, fs := fs1, tornDown := true }

/-- Run a list of events from a state. -/
def runEvs : List Ev → Sys → Sys
  | [], s => s
  | e :: rest, s => runEvs rest (stepEv e s)

/-! ### Helper lemmas -/

theorem concatChars_length (l : List String) :
    (concatChars l).length = (l.map String.length).sum := by
  induction l with
  | nil => rfl
  | cons s rest ih =>
    show (s.data ++ concatChars rest).length = (s.length :: rest.map String.length).sum
    rw [List.length_append, List.sum_cons, ih]
    rfl

theorem length_lt_diagName (taken : List String) (s : String) (h : s ∈ taken) :
    s.length < (diagName taken).length := by
  have hle : s.length ≤ (taken.map String.length).sum :=
    List.le_sum_of_mem (List.mem_map_of_mem String.length h)
  have hdl : (diagName taken).length = (concatChars taken).length + 1 := by
    show (concatChars taken ++ ['x']).length = (concatChars taken).length + 1
    rw [List.length_append]
    rfl
  rw [hdl, concatChars_length]
  omega

theorem diagName_decorated_ne (taken : List String) (a b s : String)
    (h : s ∈ taken) : a ++ diagName taken ++ b ≠ s := by
  intro he
  have hlen : (a ++ diagName taken ++ b).length = s.length := congrArg String.length he
  rw [String.length_append, String.length_append] at hlen
  have := length_lt_diagName taken s h
  omega

theorem samePathB_self (f : FileRec) : samePathB f f = true := by
  simp [samePathB]

/-- Survival predicate for teardown's deletion loop: `g` is at none of the
paths listed in `l`. -/
def notListedB (l : List FileRec) (g : FileRec) : Bool :=
  l.all (fun f => !samePathB g f)

/-- Survival predicate for the sweep's deletion loop: no file listed in `l`
that is older than `timeout` sits at `g`'s path. -/
def notReapedB (timeout now : Int) (l : List FileRec) (g : FileRec) : Bool :=
  !(l.any (fun f => decide (now - f.mtime > timeout) && samePathB g f))

theorem removeAllLoop_ok (l : List FileRec) (fs : FS)
    (h : ∀ f ∈ l, f.fails = false) :
    removeAllLoop fs l =
      ({ fs with files := fs.files.filter (notListedB l) }, none) := by
  induction l generalizing fs with
  | nil =>
    have he : ∀ gs : List FileRec, gs.filter (notListedB []) = gs := by
      intro gs; simp [notListedB]
    rw [removeAllLoop, he]
  | cons f rest ih =>
    have hf : f.fails = false := h f (List.mem_cons_self f rest)
    have hrest : ∀ g ∈ rest, g.fails = false :=
      fun g hg => h g (List.mem_cons_of_mem f hg)
    simp only [removeAllLoop, FS.unlink, hf, Bool.false_eq_true, if_false,
      ih _ hrest]
    refine congrArg (fun x => (({ dirs := fs.dirs, files := x } : FS), (none : Option Err))) ?_
    rw [List.filter_filter]
    apply List.filter_congr
    intro g _
    simp only [notListedB, List.all_cons]
    rw [Bool.and_comm]

theorem removeOldLoop_ok (timeout now : Int) (l : List FileRec) (fs : FS)
    (h : ∀ f ∈ l, now - f.mtime > timeout → f.fails = false) :
    removeOldLoop timeout now fs l =
      ({ fs with files := fs.files.filter (notReapedB timeout now l) }, none) := by
  induction l generalizing fs with
  | nil =>
    have he : ∀ gs : List FileRec, gs.filter (notReapedB timeout now []) = gs := by
      intro gs; simp [notReapedB]
    rw [removeOldLoop, he]
  | cons f rest ih =>
    have hrest : ∀ g ∈ rest, now - g.mtime > timeout → g.fails = false :=
      fun g hg => h g (List.mem_cons_of_mem f hg)
    rw [removeOldLoop]
    by_cases hold : now - f.mtime > timeout
    · have hf : f.fails = false := h f (List.mem_cons_self f rest) hold
      simp only [hold, if_true, FS.unlink, hf, Bool.false_eq_true, if_false,
        ih _ hrest]
      refine congrArg (fun x => (({ dirs := fs.dirs, files := x } : FS), (none : Option Err))) ?_
      rw [List.filter_filter]
      apply List.filter_congr
      intro g _
      simp only [notReapedB, List.any_cons, decide_eq_true hold, Bool.true_and,
        Bool.not_or, Bool.and_comm]
    · simp only [hold, if_false, ih _ hrest]
      refine congrArg (fun x => (({ dirs := fs.dirs, files := x } : FS), (none : Option Err))) ?_
      apply List.filter_congr
      intro g _
      simp only [notReapedB, List.any_cons, decide_eq_false hold, Bool.false_and,
        Bool.false_or]

theorem removeAllLoop_dirs (l : List FileRec) (fs : FS) :
    (removeAllLoop fs l).1.dirs = fs.dirs := by
  induction l generalizing fs with
  | nil => rfl
  | cons f rest ih =>
    rw [removeAllLoop, FS.unlink]
    by_cases hf : f.fails
    · simp [hf]
    · simp only [hf, Bool.false_eq_true, if_false]
      exact ih _

theorem removeOldLoop_dirs (timeout now : Int) (l : List FileRec) (fs : FS) :
    (removeOldLoop timeout now fs l).1.dirs = fs.dirs := by
  induction l generalizing fs with
  | nil => rfl
  | cons f rest ih =>
    rw [removeOldLoop]
    by_cases hold : now - f.mtime > timeout
    · rw [if_pos hold, FS.unlink]
      by_cases hf : f.fails
      · simp [hf]
      · simp only [hf, Bool.false_eq_true, if_false]
        exact ih _
    · rw [if_neg hold]
      exact ih _

theorem filesIn_filter_notListed (fs : FS) (d : String) :
    (fs.files.filter (notListedB (fs.filesIn d))).filter (fun f => f.dir == d) = [] := by
  rw [List.filter_filter, List.filter_eq_nil_iff]
  intro g hg
  simp only [Bool.and_eq_true, beq_iff_eq, not_and]
  intro hdir hnl
  have hgmem : g ∈ fs.filesIn d := by
    simp [FS.filesIn, hg, hdir]
  have := List.all_eq_true.mp hnl g hgmem
  rw [samePathB_self] at this
  simp at this

theorem timer_erase_eq (m : TempManager) (h : m.timer = none) :
    ({ m with timer := none } : TempManager) = m := by
  cases m
  simp_all

theorem exit_eq (m : TempManager) (fs : FS) :
    m.exit fs =
      (if m.temp_dir.isSome then
        ({ m with timer := none } : TempManager).remove_temp_dir fs
      else ({ m with timer := none }, fs, none)) := by
  cases htimer : m.timer with
  | none =>
    rw [timer_erase_eq m htimer]
    simp [TempManager.exit, htimer]
  | some t =>
    simp [TempManager.exit, htimer, TempManager.stop_periodic_check]

/-- Computation of `remove_temp_dir` on an active manager whose directory
exists and whose files can all be deleted: every file in the directory goes,
then the directory, then the `temp_dir` slot is cleared. -/
theorem remove_temp_dir_ok (m : TempManager) (fs : FS) (d : String)
    (hd : m.temp_dir = some d) (hdir : d ∈ fs.dirs)
    (hok : ∀ f ∈ fs.filesIn d, f.fails = false) :
    m.remove_temp_dir fs =
      ({ m with temp_dir := none },
        { dirs := fs.dirs.filter (fun x => x != d),
          files := fs.files.filter (notListedB (fs.filesIn d)) }, none) := by
  have hnil : (({ fs with files := fs.files.filter (notListedB (fs.filesIn d)) } : FS)).filesIn d = [] :=
    filesIn_filter_notListed fs d
  simp only [TempManager.remove_temp_dir, hd, removeAllLoop_ok _ _ hok, FS.rmdir]
  rw [if_pos (⟨hdir, hnil⟩ : _ ∧ _)]

/-- Sample active manager used by witness statements: timer armed, scratch
directory on disk holding two deletable files of different ages. -/
def mgrC : TempManager :=
  { check_interval := 60, remove_timeout := 600,
    timer := some { delay := 60, phase := .armed },
    temp_dir := some "/tmp/py_temp_manager-x" }

/-- Sample filesystem for witness statements. -/
def fsC : FS :=
  { dirs := ["/tmp", "/tmp/py_temp_manager-x"],
    files :=
      [ { dir := "/tmp/py_temp_manager-x", name := "a", mtime := 0,
          size := 0, fails := false },
        { dir := "/tmp/py_temp_manager-x", name := "b", mtime := 900,
          size := 3, fails := false } ] }

/-- C1: for every manager that has been activated (scratch directory set and
present on disk), `teardown` (= `exit`) returns without error, cancels any
pending timer, deletes every file in the scratch directory regardless of age,
removes the directory itself, and marks the manager inactive — for any number
of files, provided the environment lets each deletion succeed. -/
theorem teardown_removes_scratch_dir (m : TempManager) (fs : FS) (d : String)
    (hd : m.temp_dir = some d) (hdir : d ∈ fs.dirs)
    (hok : ∀ f ∈ fs.filesIn d, f.fails = false) :
    ∃ m1 fs1, m.exit fs = (m1, fs1, none) ∧ m1.temp_dir = none ∧
      m1.timer = none ∧ d ∉ fs1.dirs ∧ fs1.filesIn d = [] := by
  rw [exit_eq, hd]
  simp only [Option.isSome_some, if_true]
  rw [remove_temp_dir_ok _ fs d rfl hdir hok]
  refine ⟨_, _, rfl, rfl, rfl, ?_, ?_⟩
  · simp
  · show (fs.files.filter (notListedB (fs.filesIn d))).filter (fun f => f.dir == d) = []
    exact filesIn_filter_notListed fs d

/-- Witness for C1 at a concrete activated manager with two files. -/
theorem teardown_removes_scratch_dir_witness :
    mgrC.temp_dir = some "/tmp/py_temp_manager-x" ∧
    "/tmp/py_temp_manager-x" ∈ fsC.dirs ∧
    (∀ f ∈ fsC.filesIn "/tmp/py_temp_manager-x", f.fails = false) ∧
    (∃ m1 fs1, mgrC.exit fsC = (m1, fs1, none) ∧ m1.temp_dir = none ∧
      m1.timer = none ∧ "/tmp/py_temp_manager-x" ∉ fs1.dirs ∧
      fs1.filesIn "/tmp/py_temp_manager-x" = []) :=
  ⟨rfl, by decide, by decide,
    teardown_removes_scratch_dir mgrC fsC "/tmp/py_temp_manager-x" rfl
      (by decide) (by decide)⟩

/-- C2: on an active manager, a sweep (`remove_old_files`) at time `now`
deletes a file directly inside the scratch directory exactly when its age
`now - mtime` is strictly greater than `remove_timeout`; the sweep completes
without error and re-arms the timer.  Hypotheses: the directory listing has no
duplicate paths, and deletion succeeds for the files old enough to be
reaped. -/
theorem sweep_deletes_iff_older (m : TempManager) (now : Int) (fs : FS)
    (d : String) (hd : m.temp_dir = some d)
    (hnodup : ((fs.filesIn d).map (fun f => (f.dir, f.name))).Nodup)
    (hok : ∀ f ∈ fs.filesIn d, now - f.mtime > m.remove_timeout → f.fails = false) :
    ∃ fs1, m.remove_old_files now fs = (m.start_periodic_check, fs1, none) ∧
      ∀ f ∈ fs.filesIn d,
        (f ∈ fs1.filesIn d ↔ ¬(now - f.mtime > m.remove_timeout)) := by
  simp only [TempManager.remove_old_files, hd,
    removeOldLoop_ok m.remove_timeout now _ _ hok]
  refine ⟨_, rfl, ?_⟩
  intro f hf
  have hff : f ∈ fs.files ∧ (f.dir == d) = true := List.mem_filter.mp hf
  have hmem : f ∈ (({ fs with
      files := fs.files.filter (notReapedB m.remove_timeout now (fs.filesIn d)) } : FS)).filesIn d ↔
      notReapedB m.remove_timeout now (fs.filesIn d) f = true := by
    show f ∈ (fs.files.filter _).filter _ ↔ _
    rw [List.mem_filter, List.mem_filter]
    constructor
    · exact fun h => h.1.2
    · exact fun h => ⟨⟨hff.1, h⟩, hff.2⟩
  rw [hmem]
  constructor
  · intro hnr hold
    have : (fs.filesIn d).any (fun f' =>
        decide (now - f'.mtime > m.remove_timeout) && samePathB f f') = true :=
      List.any_eq_true.mpr ⟨f, hf, by simp [samePathB_self, hold]⟩
    rw [notReapedB, this] at hnr
    simp at hnr
  · intro hnotold
    rw [notReapedB, Bool.not_eq_eq_eq_not, Bool.not_true, List.any_eq_false]
    intro f' hf'
    simp only [Bool.and_eq_true, decide_eq_true_eq, samePathB, beq_iff_eq, not_and]
    intro hold' hd1 hn1
    have hff' : f' = f :=
      List.inj_on_of_nodup_map hnodup hf' hf (by simp [hd1, hn1])
    rw [hff'] at hold'
    exact hnotold hold'

/-- Witness for C2: with retention 600 at time 1000, the file of age 1000 is
reaped and the file of age 100 survives. -/
theorem sweep_deletes_iff_older_witness :
    (((fsC.filesIn "/tmp/py_temp_manager-x").map (fun f => (f.dir, f.name))).Nodup) ∧
    (∀ f ∈ fsC.filesIn "/tmp/py_temp_manager-x",
      1000 - f.mtime > mgrC.remove_timeout → f.fails = false) ∧
    (∃ fs1, mgrC.remove_old_files 1000 fsC = (mgrC.start_periodic_check, fs1, none) ∧
      ∀ f ∈ fsC.filesIn "/tmp/py_temp_manager-x",
        (f ∈ fs1.filesIn "/tmp/py_temp_manager-x" ↔
          ¬(1000 - f.mtime > mgrC.remove_timeout))) :=
  ⟨by decide, by decide,
    sweep_deletes_iff_older mgrC 1000 fsC "/tmp/py_temp_manager-x" rfl
      (by decide) (by decide)⟩

/-- Empty filesystem with only the platform temp root. -/
def fs0 : FS := { dirs := ["/tmp"], files := [] }

/-- Counterexample to C3: `request_temp_file` on a never-activated manager
(`temp_dir = None`) does not fail; it silently creates the file in the
platform default temporary directory `/tmp` (the `dir=None` fallback of
`tempfile.NamedTemporaryFile`) and returns that path, leaving the manager
inactive. -/
theorem request_inactive_no_failfast :
    (TempManager.init 60 600).temp_dir = none ∧
    (TempManager.init 60 600).request_temp_file none (some ".jpg") 0 fs0 =
      (TempManager.init 60 600, "/tmp/tmpx.jpg",
        { dirs := ["/tmp"],
          files := [{ dir := "/tmp", name := "tmpx.jpg", mtime := 0,
                      size := 0, fails := false }] }) := by
  constructor
  · rfl
  · rfl

/-- C3 amended: calling `request_temp_file` while the manager is inactive is
not rejected; the call succeeds, creating the new file in the platform
default temporary directory (outside any scratch directory) and returning
its path, with the manager left inactive. -/
theorem request_inactive_fallback (m : TempManager) (pfx sfx : Option String)
    (now : Int) (fs : FS) (h : m.temp_dir = none) :
    ∃ nm, m.request_temp_file pfx sfx now fs =
      (m, defaultTmpDir ++ "/" ++ nm,
        { fs with files := { dir := defaultTmpDir, name := nm, mtime := now,
                             size := 0, fails := false } :: fs.files }) := by
  refine ⟨Option.getD pfx "tmp" ++
    diagName ((fs.filesIn defaultTmpDir).map (fun f => f.name)) ++
    Option.getD sfx "", ?_⟩
  simp [TempManager.request_temp_file, FS.namedTempFile, h]

/-- Witness for the amended C3 at a concrete inactive manager. -/
theorem request_inactive_fallback_witness :
    (TempManager.init 60 600).temp_dir = none ∧
    (∃ nm, (TempManager.init 60 600).request_temp_file none (some ".mp4") 5 fs0 =
      (TempManager.init 60 600, defaultTmpDir ++ "/" ++ nm,
        { fs0 with files := { dir := defaultTmpDir, name := nm, mtime := 5,
                              size := 0, fails := false } :: fs0.files })) :=
  ⟨rfl, request_inactive_fallback (TempManager.init 60 600) none (some ".mp4")
    5 fs0 rfl⟩

/-- The name `request_temp_file` allocates inside directory `d` of filesystem
`fs` for the given decoration hints. -/
def reqName (fs : FS) (d : String) (pfx sfx : Option String) : String :=
  pfx.getD "tmp" ++ diagName ((fs.filesIn d).map (fun f => f.name)) ++ sfx.getD ""

/-- The paths of the files directly inside `d`. -/
def FS.pathsIn (fs : FS) (d : String) : List String :=
  (fs.filesIn d).map (fun f => d ++ "/" ++ f.name)

theorem request_temp_file_eq (m : TempManager) (pfx sfx : Option String)
    (now : Int) (fs : FS) (d : String) (hd : m.temp_dir = some d) :
    m.request_temp_file pfx sfx now fs =
      (m, d ++ "/" ++ reqName fs d pfx sfx,
        { fs with files := { dir := d, name := reqName fs d pfx sfx,
                             mtime := now, size := 0, fails := false } :: fs.files }) := by
  simp [TempManager.request_temp_file, FS.namedTempFile, hd, reqName]

theorem reqName_fresh (fs : FS) (d : String) (pfx sfx : Option String)
    (g : FileRec) (hg : g ∈ fs.filesIn d) : reqName fs d pfx sfx ≠ g.name := by
  rw [reqName]
  exact diagName_decorated_ne ((fs.filesIn d).map (fun f => f.name))
    (pfx.getD "tmp") (sfx.getD "") g.name (List.mem_map_of_mem _ hg)

theorem path_append_inj (d a b : String) (h : d ++ "/" ++ a = d ++ "/" ++ b) :
    a = b := by
  have hdata : (d ++ "/" ++ a).data = (d ++ "/" ++ b).data := congrArg String.data h
  rw [String.data_append, String.data_append] at hdata
  have := List.append_cancel_left hdata
  cases a
  cases b
  exact congrArg String.mk this

theorem reqPath_fresh (fs : FS) (d : String) (pfx sfx : Option String) :
    d ++ "/" ++ reqName fs d pfx sfx ∉ fs.pathsIn d := by
  intro hmem
  obtain ⟨g, hg, hpath⟩ := List.mem_map.mp hmem
  exact reqName_fresh fs d pfx sfx g hg (path_append_inj d _ _ hpath.symm)

theorem pathsIn_cons_self (fs : FS) (d : String) (nm : String) (now : Int) :
    (({ fs with files := { dir := d, name := nm, mtime := now, size := 0,
                           fails := false } :: fs.files } : FS)).pathsIn d =
      (d ++ "/" ++ nm) :: fs.pathsIn d := by
  simp [FS.pathsIn, FS.filesIn]

theorem requestSeq_files_mono (m : TempManager) (now : Int)
    (reqs : List (Option String × Option String)) (fs : FS) :
    fs.files ⊆ (requestSeq m now reqs fs).2.files := by
  induction reqs generalizing fs with
  | nil => exact fun x h => h
  | cons r rest ih =>
    obtain ⟨pfx, sfx⟩ := r
    intro x hx
    show x ∈ (requestSeq m now ((pfx, sfx) :: rest) fs).2.files
    rw [requestSeq]
    have hx1 : x ∈ (m.request_temp_file pfx sfx now fs).2.2.files := by
      simp only [TempManager.request_temp_file, FS.namedTempFile]
      exact List.mem_cons_of_mem _ hx
    exact ih _ hx1

theorem path_head (d rest : String) (c : Char) (h : d.data.head? = some c) :
    (d ++ rest).data.head? = some c := by
  rw [String.data_append, List.head?_append, h]
  rfl

theorem requestSeq_spec (m : TempManager) (now : Int) (d : String)
    (hd : m.temp_dir = some d) :
    ∀ (reqs : List (Option String × Option String)) (fs : FS),
      ((requestSeq m now reqs fs).1.Pairwise (· ≠ ·)) ∧
      (∀ q ∈ (requestSeq m now reqs fs).1,
        q ∉ fs.pathsIn d ∧ q ∈ (requestSeq m now reqs fs).2.pathsIn d) ∧
      (∀ q ∈ fs.pathsIn d, q ∈ (requestSeq m now reqs fs).2.pathsIn d) ∧
      List.Forall₂ (fun req p => ∃ nm, p = d ++ "/" ++ nm ∧
          (∃ u, nm = req.1.getD "tmp" ++ u ++ req.2.getD "") ∧
          ({ dir := d, name := nm, mtime := now, size := 0,
             fails := false } : FileRec) ∈ (requestSeq m now reqs fs).2.files)
        reqs (requestSeq m now reqs fs).1 := by
  intro reqs
  induction reqs with
  | nil =>
    intro fs
    refine ⟨List.Pairwise.nil, ?_, ?_, List.Forall₂.nil⟩
    · intro q hq
      simp [requestSeq] at hq
    · intro q hq
      exact hq
  | cons r rest ih =>
    intro fs
    obtain ⟨pfx, sfx⟩ := r
    have hstep := request_temp_file_eq m pfx sfx now fs d hd
    set nm := reqName fs d pfx sfx with hnm
    set fs1 : FS := { fs with files := { dir := d, name := nm, mtime := now,
                                         size := 0, fails := false } :: fs.files } with hfs1
    have hseq : requestSeq m now ((pfx, sfx) :: rest) fs =
        ((d ++ "/" ++ nm) :: (requestSeq m now rest fs1).1,
         (requestSeq m now rest fs1).2) := by
      rw [requestSeq, hstep]
    obtain ⟨ihPair, ihFresh, ihMono, ihShape⟩ := ih fs1
    have hpaths1 : fs1.pathsIn d = (d ++ "/" ++ nm) :: fs.pathsIn d :=
      pathsIn_cons_self fs d nm now
    have hpmem1 : (d ++ "/" ++ nm) ∈ fs1.pathsIn d := by
      rw [hpaths1]
      exact List.mem_cons_self _ _
    rw [hseq]
    refine ⟨?_, ?_, ?_, ?_⟩
    · refine List.Pairwise.cons ?_ ihPair
      intro q hq heq
      exact (ihFresh q hq).1 (heq ▸ hpmem1)
    · intro q hq
      rcases List.mem_cons.mp hq with hq | hq
      · subst hq
        exact ⟨reqPath_fresh fs d pfx sfx, ihMono _ hpmem1⟩
      · refine ⟨?_, (ihFresh q hq).2⟩
        intro hqfs
        exact (ihFresh q hq).1 (by rw [hpaths1]; exact List.mem_cons_of_mem _ hqfs)
    · intro q hq
      exact ihMono q (by rw [hpaths1]; exact List.mem_cons_of_mem _ hq)
    · refine List.Forall₂.cons ⟨nm, rfl, ⟨_, rfl⟩, ?_⟩ ihShape
      exact requestSeq_files_mono m now rest fs1 (List.mem_cons_self _ _)

/-- C4: for every sequence of `request_temp_file` calls on an active manager
whose scratch-directory path is absolute, the returned paths are pairwise
distinct; each returned path is the scratch directory plus `/` plus a name
decorated with the requested prefix (default `tmp`) and suffix (default
empty); each names a newly created empty file (size 0, modification time
`now`) recorded inside the scratch directory; and each starts with `/`. -/
theorem request_paths_unique (m : TempManager) (now : Int) (d : String)
    (reqs : List (Option String × Option String)) (fs : FS)
    (hd : m.temp_dir = some d) (habs : d.data.head? = some '/') :
    (requestSeq m now reqs fs).1.Pairwise (· ≠ ·) ∧
    List.Forall₂ (fun req p => ∃ nm, p = d ++ "/" ++ nm ∧
        (∃ u, nm = req.1.getD "tmp" ++ u ++ req.2.getD "") ∧
        ({ dir := d, name := nm, mtime := now, size := 0,
           fails := false } : FileRec) ∈ (requestSeq m now reqs fs).2.files)
      reqs (requestSeq m now reqs fs).1 ∧
    ∀ q ∈ (requestSeq m now reqs fs).1, q.data.head? = some '/' := by
  obtain ⟨hPair, hFresh, _, hShape⟩ := requestSeq_spec m now d hd reqs fs
  refine ⟨hPair, hShape, ?_⟩
  intro q hq
  obtain ⟨g, _, hgq⟩ := List.mem_map.mp (hFresh q hq).2
  rw [← hgq]
  show ((d ++ "/") ++ g.name).data.head? = some '/'
  exact path_head (d ++ "/") g.name '/' (path_head d "/" '/' habs)

/-- Witness for C4: two concrete requests on the sample active manager give
distinct absolute paths inside the scratch directory. -/
theorem request_paths_unique_witness :
    mgrC.temp_dir = some "/tmp/py_temp_manager-x" ∧
    ("/tmp/py_temp_manager-x").data.head? = some '/' ∧
    ((requestSeq mgrC 1000 [(some "img", some ".jpg"), (none, none)] fsC).1.Pairwise (· ≠ ·) ∧
     List.Forall₂ (fun req p => ∃ nm, p = "/tmp/py_temp_manager-x" ++ "/" ++ nm ∧
        (∃ u, nm = req.1.getD "tmp" ++ u ++ req.2.getD "") ∧
        ({ dir := "/tmp/py_temp_manager-x", name := nm, mtime := 1000, size := 0,
           fails := false } : FileRec)
          ∈ (requestSeq mgrC 1000 [(some "img", some ".jpg"), (none, none)] fsC).2.files)
      [(some "img", some ".jpg"), (none, none)]
      (requestSeq mgrC 1000 [(some "img", some ".jpg"), (none, none)] fsC).1 ∧
     ∀ q ∈ (requestSeq mgrC 1000 [(some "img", some ".jpg"), (none, none)] fsC).1,
       q.data.head? = some '/') :=
  ⟨rfl, rfl,
    request_paths_unique mgrC 1000 "/tmp/py_temp_manager-x"
      [(some "img", some ".jpg"), (none, none)] fsC rfl rfl⟩

theorem remove_temp_dir_ok_state (m : TempManager) (fs : FS)
    (m' : TempManager) (fs' : FS)
    (h : m.remove_temp_dir fs = (m', fs', none)) :
    m' = { m with temp_dir := none } := by
  rw [TempManager.remove_temp_dir] at h
  split at h
  · simp at h
  · split at h
    · simp at h
    · split at h
      · simp at h
      · simp only [Prod.mk.injEq] at h
        exact h.1.symm

/-- C5: teardown (`exit`) has no preconditions: on a never-activated manager
it returns without error and changes nothing, and immediately after any
successful `exit` a second `exit` is a no-op: no error, no filesystem effect,
no state change. -/
theorem teardown_no_preconditions (ci rt : Int) (fs fs' : FS)
    (m m' : TempManager) (h : m.exit fs = (m', fs', none)) :
    (TempManager.init ci rt).exit fs = (TempManager.init ci rt, fs, none) ∧
    m'.exit fs' = (m', fs', none) := by
  constructor
  · rfl
  · have hstate : m'.timer = none ∧ m'.temp_dir = none := by
      rw [exit_eq] at h
      cases htd : m.temp_dir with
      | none =>
        rw [htd] at h
        simp only [Option.isSome_none, Bool.false_eq_true, if_false,
          Prod.mk.injEq] at h
        obtain ⟨h1, -, -⟩ := h
        rw [← h1]
        exact ⟨rfl, rfl⟩
      | some d =>
        rw [htd] at h
        simp only [Option.isSome_some, if_true] at h
        have hm' := remove_temp_dir_ok_state _ _ _ _ h
        rw [hm']
        exact ⟨rfl, rfl⟩
    rw [exit_eq, hstate.2]
    simp only [Option.isSome_none, Bool.false_eq_true, if_false]
    have hm2 : ({ check_interval := m'.check_interval,
                  remove_timeout := m'.remove_timeout, timer := none,
                  temp_dir := none } : TempManager) = m' := by
      cases m'
      simp_all
    rw [hm2]

/-- Witness for C5: a concrete first `exit` succeeds and the second is a
no-op; an `exit` on a fresh manager is also a no-op. -/
theorem teardown_no_preconditions_witness :
    mgrC.exit fsC = (TempManager.init 60 600, fs0, none) ∧
    ((TempManager.init 60 600).exit fsC =
      (TempManager.init 60 600, fsC, none) ∧
     (TempManager.init 60 600).exit fs0 =
      (TempManager.init 60 600, fs0, none)) :=
  ⟨by decide,
    teardown_no_preconditions 60 600 fsC fs0 mgrC (TempManager.init 60 600)
      (by decide)⟩

/-- C6: used as a scoped resource (`with TempManager(...)`), `enter` runs on
entry and `exit` runs on every exit path: whether the body returned normally
(`(body ...).2 = none`) or raised partway (`= some e`), after the block the
manager is inactive and the scratch directory created on entry is gone, and
the body's exception is preserved (re-raised after cleanup).  Hypotheses: the
body left the scratch directory in place with only deletable files, as a
well-behaved capture body does. -/
theorem with_block_cleanup (m : TempManager) (fs : FS)
    (body : TempManager → FS → FS × Option Err)
    (hok : ∀ f ∈ (body ((m.enter fs).1) ((m.enter fs).2)).1.filesIn
        ((fs.mkdtemp "py_temp_manager-").1), f.fails = false)
    (hdir : (fs.mkdtemp "py_temp_manager-").1 ∈
        (body ((m.enter fs).1) ((m.enter fs).2)).1.dirs) :
    ∃ m2 fs3,
      withTempManager m fs body =
        (m2, fs3, (body ((m.enter fs).1) ((m.enter fs).2)).2) ∧
      m2.temp_dir = none ∧ m2.timer = none ∧
      (fs.mkdtemp "py_temp_manager-").1 ∉ fs3.dirs ∧
      fs3.filesIn ((fs.mkdtemp "py_temp_manager-").1) = [] := by
  set d : String := (fs.mkdtemp "py_temp_manager-").1 with hdd
  set fs2 : FS := (body ((m.enter fs).1) ((m.enter fs).2)).1 with hfs2
  have hd1 : ((m.enter fs).1).temp_dir = some d := rfl
  obtain ⟨m2, fs3, hex, htd, hti, hnd, hni⟩ :=
    teardown_removes_scratch_dir ((m.enter fs).1) fs2 d hd1 hdir hok
  refine ⟨m2, fs3, ?_, htd, hti, hnd, hni⟩
  show (match ((m.enter fs).1).exit fs2 with
    | (m2, fs3, none) => (m2, fs3, (body ((m.enter fs).1) ((m.enter fs).2)).2)
    | (m2, fs3, some e) => (m2, fs3, some e)) =
    (m2, fs3, (body ((m.enter fs).1) ((m.enter fs).2)).2)
  rw [hex]

/-- Witness for C6: a body that raises mid-capture still ends with the
scratch directory removed and its error re-raised. -/
theorem with_block_cleanup_witness :
    (∀ f ∈ (((fun _ f => (f, some Err.oserror)) :
        TempManager → FS → FS × Option Err) (((TempManager.init 60 600).enter fs0).1)
        (((TempManager.init 60 600).enter fs0).2)).1.filesIn
        ((fs0.mkdtemp "py_temp_manager-").1), f.fails = false) ∧
    (∃ m2 fs3,
      withTempManager (TempManager.init 60 600) fs0
          (fun _ f => (f, some Err.oserror)) =
        (m2, fs3, some Err.oserror) ∧
      m2.temp_dir = none ∧ m2.timer = none ∧
      (fs0.mkdtemp "py_temp_manager-").1 ∉ fs3.dirs ∧
      fs3.filesIn ((fs0.mkdtemp "py_temp_manager-").1) = []) :=
  ⟨by decide,
    with_block_cleanup (TempManager.init 60 600) fs0
      (fun _ f => (f, some Err.oserror)) (by decide) (by decide)⟩

/-- Filesystem whose scratch directory holds an old file whose deletion fails
(first) and an old deletable file (second). -/
def fsFail : FS :=
  { dirs := ["/tmp", "/tmp/py_temp_manager-x"],
    files :=
      [ { dir := "/tmp/py_temp_manager-x", name := "bad", mtime := 0,
          size := 0, fails := true },
        { dir := "/tmp/py_temp_manager-x", name := "c", mtime := 0,
          size := 0, fails := false } ] }

theorem removeOldLoop_err (timeout now : Int) (l : List FileRec) (fs : FS)
    (h : ∃ f ∈ l, now - f.mtime > timeout ∧ f.fails = true) :
    ∃ fs1 e, removeOldLoop timeout now fs l = (fs1, some e) := by
  induction l generalizing fs with
  | nil => simp at h
  | cons g rest ih =>
    obtain ⟨f, hf, hold, hfails⟩ := h
    rw [removeOldLoop]
    rcases List.mem_cons.mp hf with rfl | hf'
    · rw [if_pos hold, FS.unlink, if_pos hfails]
      exact ⟨fs, .oserror, rfl⟩
    · by_cases holdg : now - g.mtime > timeout
      · rw [if_pos holdg, FS.unlink]
        by_cases hgf : g.fails
        · rw [if_pos hgf]
          exact ⟨fs, .oserror, rfl⟩
        · rw [if_neg hgf]
          exact ih _ ⟨f, hf', hold, hfails⟩
      · rw [if_neg holdg]
        exact ih _ ⟨f, hf', hold, hfails⟩

theorem removeAllLoop_err (l : List FileRec) (fs : FS)
    (h : ∃ f ∈ l, f.fails = true) :
    ∃ fs1 e, removeAllLoop fs l = (fs1, some e) := by
  induction l generalizing fs with
  | nil => simp at h
  | cons g rest ih =>
    obtain ⟨f, hf, hfails⟩ := h
    rw [removeAllLoop, FS.unlink]
    rcases List.mem_cons.mp hf with rfl | hf'
    · rw [if_pos hfails]
      exact ⟨fs, .oserror, rfl⟩
    · by_cases hgf : g.fails
      · rw [if_pos hgf]
        exact ⟨fs, .oserror, rfl⟩
      · rw [if_neg hgf]
        exact ih _ ⟨f, hf', hfails⟩

/-- Counterexample to C7: with an old failing file listed before an old
deletable one, the sweep raises at the failing entry and returns with the
manager and filesystem untouched: the remaining old deletable file `c` is
still present (its deletion was never attempted) and the pass aborted. -/
theorem sweep_abort_on_failure_cex :
    mgrC.remove_old_files 1000 fsFail = (mgrC, fsFail, some Err.oserror) ∧
    ({ dir := "/tmp/py_temp_manager-x", name := "c", mtime := 0, size := 0,
       fails := false } : FileRec) ∈ fsFail.filesIn "/tmp/py_temp_manager-x" ∧
    (1000 : Int) - 0 > mgrC.remove_timeout := by
  refine ⟨?_, by decide, by decide⟩
  decide

theorem removeAllLoop_err_strong (f : FileRec) (post : List FileRec)
    (hf : f.fails = true) :
    ∀ (pre : List FileRec) (fs : FS), (∀ g ∈ pre, g.fails = false) →
      removeAllLoop fs (pre ++ f :: post) =
        ({ fs with files := fs.files.filter (notListedB pre) },
          some Err.oserror) := by
  intro pre
  induction pre with
  | nil =>
    intro fs _
    have he : fs.files.filter (notListedB []) = fs.files := by
      simp [notListedB]
    rw [List.nil_append, he, removeAllLoop, FS.unlink, if_pos hf]
  | cons g pre' ih =>
    intro fs hpre
    have hg : g.fails = false := hpre g (List.mem_cons_self g pre')
    have hpre' : ∀ x ∈ pre', x.fails = false :=
      fun x hx => hpre x (List.mem_cons_of_mem g hx)
    rw [List.cons_append]
    simp only [removeAllLoop, FS.unlink, hg, Bool.false_eq_true, if_false,
      ih _ hpre']
    refine congrArg
      (fun x => (({ dirs := fs.dirs, files := x } : FS), some Err.oserror)) ?_
    rw [List.filter_filter]
    apply List.filter_congr
    intro x _
    simp only [notListedB, List.all_cons]
    rw [Bool.and_comm]

theorem removeOldLoop_err_strong (timeout now : Int) (f : FileRec)
    (post : List FileRec) (hf : f.fails = true)
    (hold : now - f.mtime > timeout) :
    ∀ (pre : List FileRec) (fs : FS),
      (∀ g ∈ pre, now - g.mtime > timeout → g.fails = false) →
      removeOldLoop timeout now fs (pre ++ f :: post) =
        ({ fs with files := fs.files.filter (notReapedB timeout now pre) },
          some Err.oserror) := by
  intro pre
  induction pre with
  | nil =>
    intro fs _
    have he : fs.files.filter (notReapedB timeout now []) = fs.files := by
      simp [notReapedB]
    rw [List.nil_append, he, removeOldLoop, if_pos hold, FS.unlink, if_pos hf]
  | cons g pre' ih =>
    intro fs hpre
    have hpre' : ∀ x ∈ pre', now - x.mtime > timeout → x.fails = false :=
      fun x hx => hpre x (List.mem_cons_of_mem g hx)
    rw [List.cons_append, removeOldLoop]
    by_cases holdg : now - g.mtime > timeout
    · have hg : g.fails = false := hpre g (List.mem_cons_self g pre') holdg
      simp only [holdg, if_true, FS.unlink, hg, Bool.false_eq_true, if_false,
        ih _ hpre']
      refine congrArg
        (fun x => (({ dirs := fs.dirs, files := x } : FS), some Err.oserror)) ?_
      rw [List.filter_filter]
      apply List.filter_congr
      intro x _
      simp only [notReapedB, List.any_cons, decide_eq_true holdg, Bool.true_and,
        Bool.not_or, Bool.and_comm]
    · simp only [holdg, if_false, ih _ hpre']
      refine congrArg
        (fun x => (({ dirs := fs.dirs, files := x } : FS), some Err.oserror)) ?_
      apply List.filter_congr
      intro x _
      simp only [notReapedB, List.any_cons, decide_eq_false holdg,
        Bool.false_and, Bool.false_or]

theorem pre_paths_distinct (fs : FS) (d : String) (pre post : List FileRec)
    (f : FileRec) (hsplit : fs.filesIn d = pre ++ f :: post)
    (hnodup : ((fs.filesIn d).map (fun g => (g.dir, g.name))).Nodup) :
    ∀ x ∈ f :: post, ∀ g ∈ pre, samePathB x g = false := by
  rw [hsplit] at hnodup
  intro x hx g hg
  cases hsp : samePathB x g with
  | false => rfl
  | true =>
    exfalso
    have hln : (pre ++ f :: post).Nodup := hnodup.of_map _
    have hdisj := List.disjoint_of_nodup_append hln
    have hdn : x.dir = g.dir ∧ x.name = g.name := by
      simpa [samePathB] using hsp
    have hxl : x ∈ pre ++ f :: post := List.mem_append_right _ hx
    have hgl : g ∈ pre ++ f :: post := List.mem_append_left _ hg
    have hxg : x = g :=
      List.inj_on_of_nodup_map hnodup hxl hgl (by simp [hdn.1, hdn.2])
    exact hdisj hg (hxg ▸ hx)

theorem survivors_mem_filesIn (fs : FS) (d : String) (pred : FileRec → Bool)
    (x : FileRec) (hx : x ∈ fs.filesIn d) (hp : pred x = true) :
    x ∈ (({ fs with files := fs.files.filter pred } : FS)).filesIn d := by
  obtain ⟨hxf, hxd⟩ := List.mem_filter.mp hx
  exact List.mem_filter.mpr ⟨List.mem_filter.mpr ⟨hxf, hp⟩, hxd⟩

theorem notReapedB_of_no_samePath (timeout now : Int) (pre : List FileRec)
    (x : FileRec) (h : ∀ g ∈ pre, samePathB x g = false) :
    notReapedB timeout now pre x = true := by
  rw [notReapedB, Bool.not_eq_eq_eq_not, Bool.not_true, List.any_eq_false]
  intro g hg
  simp [h g hg]

theorem notListedB_of_no_samePath (pre : List FileRec) (x : FileRec)
    (h : ∀ g ∈ pre, samePathB x g = false) : notListedB pre x = true := by
  rw [notListedB, List.all_eq_true]
  intro g hg
  simp [h g hg]

/-- C7 amended: a file-deletion failure during a sweep or a teardown pass is
not tolerated: the `OSError` propagates out and the pass aborts at the
failing entry.  With the scratch listing split as `pre ++ f :: post` around
the failing file `f` (the entries before it being the ones the pass deletes
successfully), both the sweep and the teardown return the error with the
manager unchanged — so the sweep does not re-arm the timer and the teardown
does not clear `temp_dir` — the directory list of the filesystem is exactly
the one before the pass (no directory removed), and the failing file and
every entry after it are still present in the scratch directory: their
deletion was never attempted. -/
theorem deletion_failure_aborts (m : TempManager) (now : Int) (fs : FS)
    (d : String) (pre post : List FileRec) (f : FileRec)
    (hd : m.temp_dir = some d)
    (hsplit : fs.filesIn d = pre ++ f :: post)
    (hnodup : ((fs.filesIn d).map (fun g => (g.dir, g.name))).Nodup)
    (hfail : f.fails = true) :
    ((∀ g ∈ pre, now - g.mtime > m.remove_timeout → g.fails = false) →
      now - f.mtime > m.remove_timeout →
      ∃ fs1, m.remove_old_files now fs = (m, fs1, some Err.oserror) ∧
        fs1.dirs = fs.dirs ∧
        ∀ x ∈ f :: post, x ∈ fs1.filesIn d) ∧
    ((∀ g ∈ pre, g.fails = false) →
      ∃ fs1, m.remove_temp_dir fs = (m, fs1, some Err.oserror) ∧
        fs1.dirs = fs.dirs ∧
        ∀ x ∈ f :: post, x ∈ fs1.filesIn d) := by
  have hxmem : ∀ x ∈ f :: post, x ∈ fs.filesIn d := by
    intro x hx
    rw [hsplit]
    exact List.mem_append_right _ hx
  have hsep := pre_paths_distinct fs d pre post f hsplit hnodup
  constructor
  · intro hpre hold
    have heq :=
      removeOldLoop_err_strong m.remove_timeout now f post hfail hold pre fs hpre
    refine ⟨{ fs with
        files := fs.files.filter (notReapedB m.remove_timeout now pre) },
      ?_, rfl, ?_⟩
    · simp only [TempManager.remove_old_files, hd, hsplit, heq]
    · intro x hx
      exact survivors_mem_filesIn fs d _ x (hxmem x hx)
        (notReapedB_of_no_samePath m.remove_timeout now pre x (hsep x hx))
  · intro hpre
    have heq := removeAllLoop_err_strong f post hfail pre fs hpre
    refine ⟨{ fs with files := fs.files.filter (notListedB pre) }, ?_, rfl, ?_⟩
    · simp only [TempManager.remove_temp_dir, hd, hsplit, heq]
    · intro x hx
      exact survivors_mem_filesIn fs d _ x (hxmem x hx)
        (notListedB_of_no_samePath pre x (hsep x hx))

/-- The failing file of `fsFail`. -/
def badC : FileRec :=
  { dir := "/tmp/py_temp_manager-x", name := "bad", mtime := 0, size := 0,
    fails := true }

/-- The old deletable file of `fsFail`, listed after `badC`. -/
def cC : FileRec :=
  { dir := "/tmp/py_temp_manager-x", name := "c", mtime := 0, size := 0,
    fails := false }

/-- Witness for the amended C7 on the concrete failing filesystem: both
passes return the error with the manager unchanged, no directory removed,
and the failing file and the later file `cC` still present. -/
theorem deletion_failure_aborts_witness :
    fsFail.filesIn "/tmp/py_temp_manager-x" = [] ++ badC :: [cC] ∧
    badC.fails = true ∧
    (∃ fs1, mgrC.remove_old_files 1000 fsFail = (mgrC, fs1, some Err.oserror) ∧
      fs1.dirs = fsFail.dirs ∧
      ∀ x ∈ badC :: [cC], x ∈ fs1.filesIn "/tmp/py_temp_manager-x") ∧
    (∃ fs1, mgrC.remove_temp_dir fsFail = (mgrC, fs1, some Err.oserror) ∧
      fs1.dirs = fsFail.dirs ∧
      ∀ x ∈ badC :: [cC], x ∈ fs1.filesIn "/tmp/py_temp_manager-x") :=
  ⟨by decide, rfl,
    (deletion_failure_aborts mgrC 1000 fsFail "/tmp/py_temp_manager-x" []
        [cC] badC rfl (by decide) (by decide) rfl).1 (by decide) (by decide),
    (deletion_failure_aborts mgrC 1000 fsFail "/tmp/py_temp_manager-x" []
        [cC] badC rfl (by decide) (by decide) rfl).2 (by decide)⟩

/-- Activated system state for the interleaving model: armed timer, scratch
directory on disk. -/
def sysC : Sys := { m := mgrC, fs := fsC, inFlight := false, tornDown := false }

/-- Counterexample to C8: in the trace where the timer fires and runs the
sweep's deletion loop, then the foreground completes `exit` (teardown), and
then the sweep thread executes its unconditional rescheduling line, the final
state has teardown completed yet an armed timer: a sweep is pending after
teardown, because line 48 of `temp_manager.py` reschedules with no teardown
check. -/
theorem sweep_pending_after_teardown_cex :
    (runEvs [.fireBody 1000, .teardownEv, .finishSweep] sysC).tornDown = true ∧
    (runEvs [.fireBody 1000, .teardownEv, .finishSweep] sysC).m.timer =
      some { delay := 60, phase := .armed } ∧
    (runEvs [.fireBody 1000, .teardownEv, .finishSweep] sysC).m.temp_dir =
      none := by
  refine ⟨?_, ?_, ?_⟩ <;> decide

/-- C8 amended: a sweep that completes its deletion loop always executes
`start_periodic_check` and re-arms the timer for `check_interval` later —
regardless of how many files were reaped and regardless of whether teardown
has occurred in the interim (the completing sweep does not observe teardown);
consequently a sweep can be pending again after teardown. -/
theorem sweep_always_reschedules (s : Sys) (h : s.inFlight = true) :
    (stepEv .finishSweep s).m.timer =
      some { delay := s.m.check_interval, phase := .armed } ∧
    (stepEv .finishSweep s).tornDown = s.tornDown := by
  simp [stepEv, h, TempManager.start_periodic_check]

/-- Witness for the amended C8 at the post-teardown in-flight state. -/
theorem sweep_always_reschedules_witness :
    (runEvs [.fireBody 1000, .teardownEv] sysC).inFlight = true ∧
    ((stepEv .finishSweep (runEvs [.fireBody 1000, .teardownEv] sysC)).m.timer =
      some { delay := (runEvs [.fireBody 1000, .teardownEv] sysC).m.check_interval,
             phase := .armed } ∧
     (stepEv .finishSweep (runEvs [.fireBody 1000, .teardownEv] sysC)).tornDown =
      (runEvs [.fireBody 1000, .teardownEv] sysC).tornDown) :=
  ⟨by decide,
    sweep_always_reschedules (runEvs [.fireBody 1000, .teardownEv] sysC)
      (by decide)⟩

/-- Counterexample to C9: on a scratch directory containing a file whose
deletion fails, the exit-hook callback (`exit`, registered with `atexit` at
construction) raises: the `OSError` escapes the callback instead of being
caught and logged inside it. -/
theorem atexit_error_escapes_cex :
    runAtexit mgrC fsFail =
      ({ mgrC with timer := none }, fsFail, some Err.oserror) := by
  decide

/-- C9 amended: the cleanup callback registered once at construction does not
catch errors: whenever cleanup encounters a deletion failure, the error
propagates out of the callback into the process-exit machinery (the manager
is left with `temp_dir` still set). -/
theorem atexit_error_escapes (m : TempManager) (fs : FS) (d : String)
    (hd : m.temp_dir = some d)
    (hfail : ∃ f ∈ fs.filesIn d, f.fails = true) :
    ∃ fs1 e, runAtexit m fs = ({ m with timer := none }, fs1, some e) := by
  obtain ⟨fs1, e, he⟩ := removeAllLoop_err _ fs hfail
  refine ⟨fs1, e, ?_⟩
  rw [runAtexit, exit_eq, hd]
  simp only [Option.isSome_some, if_true]
  have hd1 : ({ m with timer := none } : TempManager).temp_dir = some d := hd
  simp only [TempManager.remove_temp_dir, hd1, he]

/-- Witness for the amended C9. -/
theorem atexit_error_escapes_witness :
    (∃ f ∈ fsFail.filesIn "/tmp/py_temp_manager-x", f.fails = true) ∧
    (∃ fs1 e, runAtexit mgrC fsFail =
      ({ mgrC with timer := none }, fs1, some e)) :=
  ⟨by decide,
    atexit_error_escapes mgrC fsFail "/tmp/py_temp_manager-x" rfl (by decide)⟩

/-- C10: `request_temp_file` never changes the manager's own state: the
returned manager is the argument itself, so the scratch-directory slot, the
timer slot and both configuration fields are untouched, for any prefix and
suffix arguments, on any manager. -/
theorem request_preserves_manager (m : TempManager) (pfx sfx : Option String)
    (now : Int) (fs : FS) :
    (m.request_temp_file pfx sfx now fs).1 = m ∧
    (m.request_temp_file pfx sfx now fs).1.temp_dir = m.temp_dir ∧
    (m.request_temp_file pfx sfx now fs).1.timer = m.timer ∧
    (m.request_temp_file pfx sfx now fs).1.check_interval = m.check_interval ∧
    (m.request_temp_file pfx sfx now fs).1.remove_timeout = m.remove_timeout :=
  ⟨rfl, rfl, rfl, rfl, rfl⟩
